import Mathlib

/-!
Verification of the `strlinebuf` line buffer (a fixed-capacity ring buffer
storing bytes until a configurable line terminator is reached).

The Rust source (`src/lib.rs`) is shallowly embedded below.  Machine bytes
are modelled as `Nat` (the code only ever compares bytes for equality with
the constants 13 = CR, 10 = LF, 0 = NUL, so the 8-bit width never matters).
The fixed-size array `[u8; CAPACITY]` is a `List Nat` of length CAPACITY.
Methods taking `&mut self` are modelled as state-passing functions; a Rust
panic (index out of bounds) is modelled as the result `Option.none`, so a
call that returns normally produces `some` of a pair of the new state and
the `Result` value.
-/

/-- Terminator variants, mirroring `enum Terminator` in the source. -/
inductive Terminator where
  | None
  | CarriageReturn
  | Newline
  | NULL
  | CarriageReturnNewline
  | NewlineCarriageReturn
deriving DecidableEq

/-- Mirrors `struct LineBufferConfig`. -/
structure LineBufferConfig where
  terminator : Terminator
deriving DecidableEq

/-- Mirrors `enum LineBufferTxError`. -/
inductive LineBufferTxError where
  | BufferFull
deriving DecidableEq

/-- Mirrors `enum LineBufferRxError`. -/
inductive LineBufferRxError where
  | BufferEmpty
  | NoLines
deriving DecidableEq

/-- Mirrors `struct LineBuffer<const CAPACITY: usize>`.  The Rust field
`end` is a Lean keyword, so it is named `endIdx` here.  The capacity is
`buffer.length`. -/
structure LineBuffer where
  buffer : List Nat
  config : LineBufferConfig
  start : Nat
  endIdx : Nat
  empty : Bool
deriving DecidableEq

deriving instance DecidableEq for Except

namespace LineBuffer

/-- Mirrors `LineBuffer::new()`: `CAPACITY` (the Rust const generic) is an
explicit argument; the default config uses `Terminator::Newline`. -/
def new (CAPACITY : Nat) : LineBuffer :=
  { buffer := List.replicate CAPACITY 0
    config := { terminator := Terminator.Newline }
    start := 0
    endIdx := 0
    empty := true }

/-- Mirrors `LineBuffer::new_with_config(config)`. -/
def new_with_config (CAPACITY : Nat) (config : LineBufferConfig) : LineBuffer :=
  { buffer := List.replicate CAPACITY 0
    config := config
    start := 0
    endIdx := 0
    empty := true }

/-- Mirrors `is_empty`: returns the `empty` flag. -/
def is_empty (lb : LineBuffer) : Bool :=
  lb.empty

/-- Mirrors `is_full`: `!self.empty && self.start == self.end`. -/
def is_full (lb : LineBuffer) : Bool :=
  !lb.empty && lb.start == lb.endIdx

/-- Mirrors `clear`: resets the indices and the empty flag, leaving the
storage contents untouched. -/
def clear (lb : LineBuffer) : LineBuffer :=
  { lb with start := 0, endIdx := 0, empty := true }

/-- Mirrors `push_byte`.  Returns `none` when the Rust code would panic
(`self.buffer[self.end]` with `end` out of bounds, which happens exactly
when `CAPACITY = 0`); otherwise `some (new state, Result)`.  On the
`BufferFull` early return the state is unchanged. -/
def push_byte (lb : LineBuffer) (byte : Nat) :
    Option (LineBuffer × Except LineBufferTxError Unit) :=
  if lb.is_full then
    some (lb, Except.error LineBufferTxError.BufferFull)
  else if lb.endIdx < lb.buffer.length then
    some ({ lb with
              empty := false
              buffer := lb.buffer.set lb.endIdx byte
              endIdx := (lb.endIdx + 1) % lb.buffer.length },
          Except.ok ())
  else
    none

/-- Mirrors `push_bytes`: applies `push_byte` to each byte in order,
returning the first error immediately (the `?` operator), with the state
as it is at that point. -/
def push_bytes (lb : LineBuffer) (bytes : List Nat) :
    Option (LineBuffer × Except LineBufferTxError Unit) :=
  match bytes with
  | [] => some (lb, Except.ok ())
  | b :: rest =>
    match lb.push_byte b with
    | none => none
    | some (lb1, Except.error e) => some (lb1, Except.error e)
    | some (lb1, Except.ok _) => lb1.push_bytes rest

end LineBuffer

/-- The terminator-match test of the `match self.config.terminator` block in
`read_line_bytes`, shared verbatim between the embedding of the loop and the
structural reference recursion.  `nextByte` is `self.buffer[self.start]`,
`s` is the current `self.start`, `endIdx` is `self.end`.  Returns `some adv`
when the source breaks out of the loop after `self.start = (self.start + adv)
% CAPACITY`, and `none` when no terminator matched at this position.  The
second byte of a two-byte terminator is read at `(s + 1) % CAPACITY`, which
is in bounds whenever the buffer is non-empty, so `getD` with default 0
introduces no behaviour beyond the source's indexing. -/
def matchedAdv (buf : List Nat) (term : Terminator) (endIdx s nextByte : Nat) :
    Option Nat :=
  match term with
  | Terminator.None => none
  | Terminator.Newline => if nextByte == 10 then some 1 else none
  | Terminator.CarriageReturn => if nextByte == 13 then some 1 else none
  | Terminator.NULL => if nextByte == 0 then some 1 else none
  | Terminator.CarriageReturnNewline =>
    if nextByte == 13 && s != endIdx && buf.getD ((s + 1) % buf.length) 0 == 10
    then some 2 else none
  | Terminator.NewlineCarriageReturn =>
    if nextByte == 10 && s != endIdx && buf.getD ((s + 1) % buf.length) 0 == 13
    then some 2 else none

/-- The `loop` of `read_line_bytes`, fuelled (the top-level call passes
`CAPACITY + 1`, which is shown sufficient below).  The buffer contents,
terminator, `end` index and `initial_start` are loop-invariant; the mutable
loop state is `(start, empty, aux_buffer, bytes_read)`.  Result `none`
models a Rust panic: `self.buffer[self.start]` out of bounds,
`aux_buffer[bytes_read]` out of bounds, or fuel exhaustion (which is proved
unreachable for well-formed states).  Otherwise returns the final
`(start, empty, aux_buffer, Result)`. -/
def readLoop (buf : List Nat) (term : Terminator) (endIdx initialStart : Nat) :
    Nat → Nat → Bool → List Nat → Nat →
    Option (Nat × Bool × List Nat × Except LineBufferRxError Nat)
  | 0, _, _, _, _ => none
  | fuel + 1, s, e, aux, bytesRead =>
    if s < buf.length then
      match matchedAdv buf term endIdx s (buf.getD s 0) with
      | some adv =>
        -- terminator matched: advance start, maybe set empty, break; Ok(bytes_read)
        some ((s + adv) % buf.length,
              if (s + adv) % buf.length = endIdx then true else e,
              aux, Except.ok bytesRead)
      | none =>
        -- aux_buffer[bytes_read] = next_byte; advance; bytes_read += 1
        if bytesRead < aux.length then
          if (s + 1) % buf.length = endIdx then
            -- `if let Terminator::None = ...` in the source
            if term = Terminator.None then
              some ((s + 1) % buf.length, true, aux.set bytesRead (buf.getD s 0),
                    Except.ok (bytesRead + 1))
            else
              some (initialStart, true, aux.set bytesRead (buf.getD s 0),
                    Except.error LineBufferRxError.NoLines)
          else
            readLoop buf term endIdx initialStart fuel ((s + 1) % buf.length) e
              (aux.set bytesRead (buf.getD s 0)) (bytesRead + 1)
        else
          none
    else
      none

namespace LineBuffer

/-- Mirrors `read_line_bytes(aux_buffer)`.  The Rust signature forces
`aux_buffer` to have length exactly CAPACITY; here `aux` is the list it is
modelled by.  Returns `none` for a panic, otherwise the new buffer state,
the (possibly written-to) aux buffer, and the `Result`. -/
def read_line_bytes (lb : LineBuffer) (aux : List Nat) :
    Option (LineBuffer × List Nat × Except LineBufferRxError Nat) :=
  if lb.is_empty then
    some (lb, aux, Except.error LineBufferRxError.BufferEmpty)
  else
    match readLoop lb.buffer lb.config.terminator lb.endIdx lb.start
        (lb.buffer.length + 1) lb.start lb.empty aux 0 with
    | none => none
    | some (s1, e1, aux1, res) =>
      some ({ lb with start := s1, empty := e1 }, aux1, res)

end LineBuffer

/-- Well-formedness of a buffer state: both indices are inside the storage.
Every state the constructors produce satisfies this, and every operation
preserves it (proved below); it also forces `CAPACITY ≥ 1`. -/
def WF (lb : LineBuffer) : Prop :=
  lb.start < lb.buffer.length ∧ lb.endIdx < lb.buffer.length

instance (lb : LineBuffer) : Decidable (WF lb) := by
  unfold WF; infer_instance

/-- Number of held (written but unconsumed) bytes of a non-empty buffer,
as the index geometry defines it: the circular distance from `start`
forward to `endIdx`, which is the full capacity when `start = endIdx`. -/
def heldCount (lb : LineBuffer) : Nat :=
  if lb.empty then 0
  else if lb.start = lb.endIdx then lb.buffer.length
  else (lb.endIdx + lb.buffer.length - lb.start) % lb.buffer.length

/-- The `i`-th held byte (0-based from `start`, circularly). -/
def heldByte (lb : LineBuffer) (i : Nat) : Nat :=
  lb.buffer.getD ((lb.start + i) % lb.buffer.length) 0

/-- The held bytes of a buffer, as a list in arrival order. -/
def heldList (lb : LineBuffer) : List Nat :=
  (List.range (heldCount lb)).map (heldByte lb)

/-- `getD` after `set` at the written index. -/
lemma getD_set_self (l : List Nat) (i v : Nat) (h : i < l.length) :
    (l.set i v).getD i 0 = v := by
  rw [List.getD_eq_getElem?_getD, List.getElem?_set_self h]
  rfl

/-- `getD` after `set` at a different index. -/
lemma getD_set_ne (l : List Nat) (i j v : Nat) (h : i ≠ j) :
    (l.set i v).getD j 0 = l.getD j 0 := by
  rw [List.getD_eq_getElem?_getD, List.getElem?_set_ne h, ← List.getD_eq_getElem?_getD]

/-- Advancing a position strictly between 1 and `len - 1` steps around a ring
of size `len` never returns to the same position. -/
lemma addMod_ne_self (len s k : Nat) (hs : s < len) (h1 : 1 ≤ k) (h2 : k < len) :
    (s + k) % len ≠ s := by
  intro h
  rcases Nat.lt_or_ge (s + k) len with hlt | hge
  · rw [Nat.mod_eq_of_lt hlt] at h
    omega
  · have h3 : s + k - len < len := by omega
    rw [Nat.mod_eq_sub_mod hge, Nat.mod_eq_of_lt h3] at h
    omega

/-- Cumulative effect of the scan loop on the aux buffer: starting at write
index `br` and ring position `s`, copy `k` consecutive ring bytes. -/
def auxWrite (buf : List Nat) : Nat → Nat → List Nat → Nat → List Nat
  | 0, _, aux, _ => aux
  | k + 1, s, aux, br =>
    auxWrite buf k ((s + 1) % buf.length) (aux.set br (buf.getD s 0)) (br + 1)

lemma auxWrite_length (buf : List Nat) :
    ∀ k s aux br, (auxWrite buf k s aux br).length = aux.length := by
  intro k
  induction k with
  | zero => intro s aux br; rfl
  | succ k ih => intro s aux br; rw [auxWrite, ih, List.length_set]

/-- Pointwise description of `auxWrite`: inside the written window the aux
buffer holds the ring bytes, outside it is untouched. -/
lemma auxWrite_getD (buf : List Nat) :
    ∀ k s aux br, s < buf.length → br + k ≤ aux.length → ∀ j,
      (auxWrite buf k s aux br).getD j 0 =
        if br ≤ j ∧ j < br + k then buf.getD ((s + (j - br)) % buf.length) 0
        else aux.getD j 0 := by
  intro k
  induction k with
  | zero =>
    intro s aux br _ _ j
    rw [auxWrite, if_neg (by omega)]
  | succ k ih =>
    intro s aux br hs hlen j
    have hlen0 : 0 < buf.length := by omega
    have hs1 : (s + 1) % buf.length < buf.length := Nat.mod_lt _ hlen0
    have hbr : br < aux.length := by omega
    rw [auxWrite, ih ((s + 1) % buf.length) (aux.set br (buf.getD s 0)) (br + 1) hs1
      (by rw [List.length_set]; omega) j]
    by_cases hj1 : br + 1 ≤ j ∧ j < br + 1 + k
    · rw [if_pos hj1, if_pos (by omega)]
      rw [Nat.mod_add_mod]
      have : s + 1 + (j - (br + 1)) = s + (j - br) := by omega
      rw [this]
    · rw [if_neg hj1]
      by_cases hj2 : j = br
      · subst hj2
        rw [if_pos (by omega), getD_set_self _ _ _ hbr]
        have : j - j = 0 := by omega
        rw [this, Nat.add_zero, Nat.mod_eq_of_lt hs]
      · rw [if_neg (by omega), getD_set_ne _ _ _ _ (by omega)]

/-- Structural reference model of the scan loop: recursion on the number
`k` of remaining held bytes in front of the scan position (`k ≥ 1` whenever
the loop is entered).  The loop's data-dependent exit test
`start == end` is replaced by the structural test `k = 0`;
`readLoop_eq_scanSpec` below proves the two agree on well-formed states.
The `k = 0` case is a dummy, never reached from `read_line_bytes`. -/
def scanSpec (buf : List Nat) (term : Terminator) (endIdx initialStart : Nat) :
    Nat → Nat → Bool → List Nat → Nat →
    Nat × Bool × List Nat × Except LineBufferRxError Nat
  | 0, s, e, aux, br => (s, e, aux, Except.ok br)
  | k + 1, s, e, aux, br =>
    match matchedAdv buf term endIdx s (buf.getD s 0) with
    | some adv =>
      ((s + adv) % buf.length,
       if (s + adv) % buf.length = endIdx then true else e,
       aux, Except.ok br)
    | none =>
      if k = 0 then
        if term = Terminator.None then
          ((s + 1) % buf.length, true, aux.set br (buf.getD s 0), Except.ok (br + 1))
        else
          (initialStart, true, aux.set br (buf.getD s 0),
           Except.error LineBufferRxError.NoLines)
      else
        scanSpec buf term endIdx initialStart k ((s + 1) % buf.length) e
          (aux.set br (buf.getD s 0)) (br + 1)

/-- The fuelled loop agrees with the structural recursion whenever the state
is well formed: `k` is the circular distance from the scan position `s`
forward to `endIdx` (`k = CAPACITY` when they coincide), the fuel is at
least `k`, and the aux buffer has room for `k` more bytes.  In particular
the loop never panics nor runs out of fuel under these hypotheses. -/
lemma readLoop_eq_scanSpec (buf : List Nat) (term : Terminator)
    (endIdx initialStart : Nat) :
    ∀ fuel k s e aux br, 1 ≤ k → k ≤ buf.length → k ≤ fuel → s < buf.length →
      (s + k) % buf.length = endIdx → br + k ≤ aux.length →
      readLoop buf term endIdx initialStart fuel s e aux br =
        some (scanSpec buf term endIdx initialStart k s e aux br) := by
  intro fuel
  induction fuel with
  | zero => intro k s e aux br h1 _ h3 _ _ _; omega
  | succ fuel ih =>
    intro k s e aux br h1 h2 h3 hs hend hbr
    have hlen0 : 0 < buf.length := by omega
    obtain ⟨k1, rfl⟩ : ∃ k1, k = k1 + 1 := ⟨k - 1, by omega⟩
    rw [readLoop, if_pos hs]
    cases hm : matchedAdv buf term endIdx s (buf.getD s 0) with
    | some adv =>
      rw [scanSpec, hm]
    | none =>
      rw [scanSpec, hm, if_pos (by omega : br < aux.length)]
      by_cases hk1 : k1 = 0
      · subst hk1
        rw [if_pos hend, if_pos rfl]
        by_cases ht : term = Terminator.None
        · rw [if_pos ht, if_pos ht]
        · rw [if_neg ht, if_neg ht]
      · have e1 : ((s + 1) % buf.length + k1) % buf.length = endIdx := by
          rw [Nat.mod_add_mod]
          have e2 : s + 1 + k1 = s + (k1 + 1) := by omega
          rw [e2, hend]
        have hne : (s + 1) % buf.length ≠ endIdx := by
          intro hcon
          exact addMod_ne_self buf.length ((s + 1) % buf.length) k1
            (Nat.mod_lt _ hlen0) (by omega) (by omega) (by rw [e1, hcon])
        rw [if_neg hne, if_neg hk1]
        exact ih k1 ((s + 1) % buf.length) e (aux.set br (buf.getD s 0)) (br + 1)
          (by omega) (by omega) (by omega) (Nat.mod_lt _ hlen0) e1
          (by rw [List.length_set]; omega)

/-- The start index produced by the structural scan stays inside the ring. -/
lemma scanSpec_fst_lt (buf : List Nat) (term : Terminator)
    (endIdx initialStart : Nat) (hlen0 : 0 < buf.length)
    (hinit : initialStart < buf.length) :
    ∀ k s e aux br, s < buf.length →
      (scanSpec buf term endIdx initialStart k s e aux br).1 < buf.length := by
  intro k
  induction k with
  | zero => intro s e aux br hs; exact hs
  | succ k ih =>
    intro s e aux br hs
    rw [scanSpec]
    cases matchedAdv buf term endIdx s (buf.getD s 0) with
    | some adv => exact Nat.mod_lt _ hlen0
    | none =>
      by_cases hk : k = 0
      · rw [if_pos hk]
        by_cases ht : term = Terminator.None
        · rw [if_pos ht]; exact Nat.mod_lt _ hlen0
        · rw [if_neg ht]; exact hinit
      · rw [if_neg hk]
        exact ih _ e _ _ (Nat.mod_lt _ hlen0)

/-- With terminator `None` no position ever matches, so the structural scan
copies all `k + 1` remaining bytes, ends at `endIdx` with the empty flag
set, and reports `Ok (br + (k + 1))`. -/
lemma scanSpec_none_eq (buf : List Nat) (endIdx initialStart : Nat) :
    ∀ k s e aux br,
      scanSpec buf Terminator.None endIdx initialStart (k + 1) s e aux br =
        ((s + (k + 1)) % buf.length, true, auxWrite buf (k + 1) s aux br,
         Except.ok (br + (k + 1))) := by
  intro k
  induction k with
  | zero =>
    intro s e aux br
    rw [scanSpec]
    rw [show matchedAdv buf Terminator.None endIdx s (buf.getD s 0) = none from rfl]
    rw [if_pos rfl, if_pos rfl]
    rfl
  | succ k ih =>
    intro s e aux br
    rw [scanSpec]
    rw [show matchedAdv buf Terminator.None endIdx s (buf.getD s 0) = none from rfl]
    rw [if_neg (Nat.succ_ne_zero k)]
    rw [ih ((s + 1) % buf.length) e (aux.set br (buf.getD s 0)) (br + 1)]
    rw [Nat.mod_add_mod]
    have e1 : s + 1 + (k + 1) = s + (k + 1 + 1) := by omega
    have e2 : br + 1 + (k + 1) = br + (k + 1 + 1) := by omega
    rw [e1, e2]
    rfl

/-- Inversion: if the structural scan reports `NoLines`, the final start is
`initialStart` (the rewind), the empty flag is left `true`, and the aux
buffer holds all scanned bytes. -/
lemma scanSpec_noLines_inv (buf : List Nat) (term : Terminator)
    (endIdx initialStart : Nat) :
    ∀ k s e aux br s1 e1 aux1,
      scanSpec buf term endIdx initialStart k s e aux br =
        (s1, e1, aux1, Except.error LineBufferRxError.NoLines) →
      s1 = initialStart ∧ e1 = true ∧ aux1 = auxWrite buf k s aux br := by
  intro k
  induction k with
  | zero =>
    intro s e aux br s1 e1 aux1 h
    rw [scanSpec] at h
    simp only [Prod.mk.injEq] at h
    exact absurd h.2.2.2 (by simp)
  | succ k ih =>
    intro s e aux br s1 e1 aux1 h
    rw [scanSpec] at h
    cases hm : matchedAdv buf term endIdx s (buf.getD s 0) with
    | some adv =>
      rw [hm] at h
      simp only [Prod.mk.injEq] at h
      exact absurd h.2.2.2 (by simp)
    | none =>
      rw [hm] at h
      by_cases hk : k = 0
      · rw [if_pos hk] at h
        by_cases ht : term = Terminator.None
        · rw [if_pos ht] at h
          simp only [Prod.mk.injEq] at h
          exact absurd h.2.2.2 (by simp)
        · rw [if_neg ht] at h
          subst hk
          simp only [Prod.mk.injEq] at h
          exact ⟨h.1.symm, h.2.1.symm, h.2.2.1.symm⟩
      · rw [if_neg hk] at h
        obtain ⟨k1, rfl⟩ : ∃ k1, k = k1 + 1 := ⟨k - 1, by omega⟩
        exact ih _ e _ _ _ _ _ h

/-- The first `k` positions of the aux buffer after `auxWrite` from write
index 0 are the `k` ring bytes starting at `s`. -/
lemma auxWrite_take (buf : List Nat) (k s : Nat) (aux : List Nat)
    (hs : s < buf.length) (hk : k ≤ aux.length) :
    (auxWrite buf k s aux 0).take k =
      (List.range k).map (fun i => buf.getD ((s + i) % buf.length) 0) := by
  have hlen : (auxWrite buf k s aux 0).length = aux.length := auxWrite_length buf k s aux 0
  apply List.ext_getElem
  · rw [List.length_take, List.length_map, List.length_range, hlen]
    omega
  · intro n h1 h2
    rw [List.getElem_take, List.getElem_map, List.getElem_range]
    have hn : n < k := by
      rw [List.length_take, hlen] at h1
      omega
    have hg := auxWrite_getD buf k s aux 0 hs (by omega) n
    rw [if_pos (by omega)] at hg
    rw [← List.getD_eq_getElem _ 0, hg]
    have : n - 0 = n := by omega
    rw [this]

/-- Positions at or beyond the written window are untouched by `auxWrite`. -/
lemma auxWrite_drop (buf : List Nat) (k s : Nat) (aux : List Nat)
    (hs : s < buf.length) (hk : k ≤ aux.length) :
    (auxWrite buf k s aux 0).drop k = aux.drop k := by
  have hlen : (auxWrite buf k s aux 0).length = aux.length := auxWrite_length buf k s aux 0
  apply List.ext_getElem
  · rw [List.length_drop, List.length_drop, hlen]
  · intro n h1 h2
    rw [List.getElem_drop, List.getElem_drop]
    have hn : k + n < aux.length := by
      rw [List.length_drop] at h2
      omega
    have hg := auxWrite_getD buf k s aux 0 hs (by omega) (k + n)
    rw [if_neg (by omega)] at hg
    rw [← List.getD_eq_getElem _ 0, hg, List.getD_eq_getElem _ 0 hn]

/-- The scan loop never produces the `BufferEmpty` error (that error is
issued only by the pre-loop emptiness check). -/
lemma readLoop_ne_bufferEmpty (buf : List Nat) (term : Terminator)
    (endIdx initialStart : Nat) :
    ∀ fuel s e aux br s1 e1 aux1,
      readLoop buf term endIdx initialStart fuel s e aux br ≠
        some (s1, e1, aux1, Except.error LineBufferRxError.BufferEmpty) := by
  intro fuel
  induction fuel with
  | zero => intro s e aux br s1 e1 aux1 h; exact Option.noConfusion h
  | succ fuel ih =>
    intro s e aux br s1 e1 aux1 h
    rw [readLoop] at h
    by_cases hs : s < buf.length
    · rw [if_pos hs] at h
      cases hm : matchedAdv buf term endIdx s (buf.getD s 0) with
      | some adv =>
        rw [hm] at h
        simp only [Option.some.injEq, Prod.mk.injEq] at h
        exact absurd h.2.2.2 (by simp)
      | none =>
        rw [hm] at h
        by_cases hb : br < aux.length
        · rw [if_pos hb] at h
          by_cases he : (s + 1) % buf.length = endIdx
          · rw [if_pos he] at h
            by_cases ht : term = Terminator.None
            · rw [if_pos ht] at h
              simp only [Option.some.injEq, Prod.mk.injEq] at h
              exact absurd h.2.2.2 (by simp)
            · rw [if_neg ht] at h
              simp only [Option.some.injEq, Prod.mk.injEq] at h
              exact absurd h.2.2.2 (by simp)
          · rw [if_neg he] at h
            exact ih _ e _ _ _ _ _ h
        · rw [if_neg hb] at h
          exact Option.noConfusion h
    · rw [if_neg hs] at h
      exact Option.noConfusion h

/-- For a well-formed non-empty buffer, `heldCount` is between 1 and the
capacity and advancing `start` by it lands exactly on `endIdx`. -/
lemma heldCount_range (lb : LineBuffer) (hwf : WF lb) (he : lb.empty = false) :
    1 ≤ heldCount lb ∧ heldCount lb ≤ lb.buffer.length ∧
      (lb.start + heldCount lb) % lb.buffer.length = lb.endIdx := by
  obtain ⟨hs, hend⟩ := hwf
  rw [heldCount, if_neg (by rw [he]; exact Bool.false_ne_true)]
  by_cases hse : lb.start = lb.endIdx
  · rw [if_pos hse]
    refine ⟨by omega, Nat.le_refl _, ?_⟩
    rw [Nat.add_mod_right, Nat.mod_eq_of_lt hs, hse]
  · rw [if_neg hse]
    rcases Nat.lt_or_ge lb.start lb.endIdx with hlt | hge
    · have e1 : lb.endIdx + lb.buffer.length - lb.start =
          (lb.endIdx - lb.start) + lb.buffer.length := by omega
      rw [e1, Nat.add_mod_right, Nat.mod_eq_of_lt (by omega)]
      refine ⟨by omega, by omega, ?_⟩
      have e2 : lb.start + (lb.endIdx - lb.start) = lb.endIdx := by omega
      rw [e2, Nat.mod_eq_of_lt hend]
    · have hgt : lb.endIdx < lb.start := by omega
      rw [Nat.mod_eq_of_lt (by omega)]
      refine ⟨by omega, by omega, ?_⟩
      have e3 : lb.start + (lb.endIdx + lb.buffer.length - lb.start) =
          lb.endIdx + lb.buffer.length := by omega
      rw [e3, Nat.add_mod_right, Nat.mod_eq_of_lt hend]

/-- For a well-formed non-empty buffer with an aux buffer of the ring's
capacity, `read_line_bytes` is the structural scan over the held bytes. -/
lemma read_line_bytes_eq (lb : LineBuffer) (aux : List Nat)
    (hwf : WF lb) (he : lb.empty = false)
    (haux : aux.length = lb.buffer.length)
    (s1 : Nat) (e1 : Bool) (aux1 : List Nat) (res : Except LineBufferRxError Nat)
    (hscan : scanSpec lb.buffer lb.config.terminator lb.endIdx lb.start
        (heldCount lb) lb.start lb.empty aux 0 = (s1, e1, aux1, res)) :
    lb.read_line_bytes aux = some ({ lb with start := s1, empty := e1 }, aux1, res) := by
  obtain ⟨hc1, hc2, hc3⟩ := heldCount_range lb hwf he
  rw [LineBuffer.read_line_bytes,
    if_neg (by rw [LineBuffer.is_empty, he]; exact Bool.false_ne_true)]
  rw [readLoop_eq_scanSpec lb.buffer lb.config.terminator lb.endIdx lb.start
    (lb.buffer.length + 1) (heldCount lb) lb.start lb.empty aux 0
    hc1 hc2 (by omega) hwf.1 hc3 (by omega)]
  rw [hscan]

/-- A successful bulk push of a prefix composes: the remaining bytes are
pushed from the intermediate state. -/
lemma push_bytes_append (xs : List Nat) :
    ∀ (lb lb1 : LineBuffer) (ys : List Nat),
      lb.push_bytes xs = some (lb1, Except.ok ()) →
      lb.push_bytes (xs ++ ys) = lb1.push_bytes ys := by
  induction xs with
  | nil =>
    intro lb lb1 ys h
    rw [LineBuffer.push_bytes] at h
    simp only [Option.some.injEq, Prod.mk.injEq] at h
    rw [List.nil_append, h.1]
  | cons x xs ih =>
    intro lb lb1 ys h
    rw [List.cons_append, LineBuffer.push_bytes]
    rw [LineBuffer.push_bytes] at h
    cases hp : lb.push_byte x with
    | none => rw [hp] at h; exact absurd h (by simp)
    | some r =>
      obtain ⟨lb2, res⟩ := r
      rw [hp] at h
      cases res with
      | error e =>
        simp only [Option.some.injEq, Prod.mk.injEq] at h
        exact absurd h.2 (by simp)
      | ok u => exact ih lb2 lb1 ys h

/-- Claim C5: pushing a byte into a full buffer fails with `BufferFull` and
leaves the buffer (storage, `start`, `end`, `empty`) exactly as before. -/
theorem claim_C5_push_full (lb : LineBuffer) (b : Nat) (h : lb.is_full = true) :
    lb.push_byte b = some (lb, Except.error LineBufferTxError.BufferFull) := by
  rw [LineBuffer.push_byte, if_pos h]

/-- Witness for C5 at a concrete full one-byte buffer. -/
theorem claim_C5_witness :
    ({ buffer := [65], config := { terminator := Terminator.Newline },
       start := 0, endIdx := 0, empty := false } : LineBuffer).push_byte 66 =
      some ({ buffer := [65], config := { terminator := Terminator.Newline },
              start := 0, endIdx := 0, empty := false },
            Except.error LineBufferTxError.BufferFull) :=
  claim_C5_push_full _ 66 (by decide)

/-- Claim C6: reading from a buffer whose `empty` flag is set fails with
`BufferEmpty`, mutating neither the buffer state nor the aux buffer; and
`BufferEmpty` is produced in exactly this case (a non-empty buffer never
yields it — in particular it is distinct from the `NoLines` condition). -/
theorem claim_C6_read_empty (lb : LineBuffer) (aux : List Nat) :
    (lb.empty = true →
      lb.read_line_bytes aux =
        some (lb, aux, Except.error LineBufferRxError.BufferEmpty)) ∧
    (lb.empty = false → ∀ lb1 aux1,
      lb.read_line_bytes aux ≠
        some (lb1, aux1, Except.error LineBufferRxError.BufferEmpty)) := by
  constructor
  · intro he
    rw [LineBuffer.read_line_bytes, if_pos (by rw [LineBuffer.is_empty, he])]
  · intro he lb1 aux1 h
    rw [LineBuffer.read_line_bytes,
      if_neg (by rw [LineBuffer.is_empty, he]; exact Bool.false_ne_true)] at h
    cases hr : readLoop lb.buffer lb.config.terminator lb.endIdx lb.start
        (lb.buffer.length + 1) lb.start lb.empty aux 0 with
    | none => rw [hr] at h; exact Option.noConfusion h
    | some r =>
      obtain ⟨s1, e1, aux1x, res⟩ := r
      rw [hr] at h
      simp only [Option.some.injEq, Prod.mk.injEq] at h
      exact readLoop_ne_bufferEmpty lb.buffer lb.config.terminator lb.endIdx lb.start
        (lb.buffer.length + 1) lb.start lb.empty aux 0 s1 e1 aux1x (h.2.2 ▸ hr)

/-- Witness for C6 at a freshly constructed buffer. -/
theorem claim_C6_witness :
    (LineBuffer.new 3).read_line_bytes [0, 0, 0] =
      some (LineBuffer.new 3, [0, 0, 0], Except.error LineBufferRxError.BufferEmpty) :=
  (claim_C6_read_empty (LineBuffer.new 3) [0, 0, 0]).1 rfl

/-- Claim C9: `push_bytes` applies `push_byte` byte by byte and is not
atomic: if pushing the prefix `pre` succeeds and leaves the buffer full,
pushing `pre ++ b :: post` returns `BufferFull` immediately with exactly
the state reached after `pre` (the prefix stays written; `b` and `post`
are never written). -/
theorem claim_C9_partial_write (lb lb1 : LineBuffer) (pre : List Nat)
    (b : Nat) (post : List Nat)
    (h1 : lb.push_bytes pre = some (lb1, Except.ok ()))
    (h2 : lb1.is_full = true) :
    lb.push_bytes (pre ++ b :: post) =
      some (lb1, Except.error LineBufferTxError.BufferFull) := by
  rw [push_bytes_append pre lb lb1 (b :: post) h1]
  rw [LineBuffer.push_bytes, LineBuffer.push_byte, if_pos h2]

/-- Witness for C9: pushing 65, 66, 67, 68 into a 2-byte buffer commits
65 and 66 and fails on 67. -/
theorem claim_C9_witness :
    (LineBuffer.new 2).push_bytes ([65, 66] ++ 67 :: [68]) =
      some ({ buffer := [65, 66], config := { terminator := Terminator.Newline },
              start := 0, endIdx := 0, empty := false },
            Except.error LineBufferTxError.BufferFull) :=
  claim_C9_partial_write (LineBuffer.new 2) _ [65, 66] 67 [68] (by decide) (by decide)

/-- Claim C1 is violated by the code: on the `NoLines` path `read_line_bytes`
rewinds `start` and leaves `end` alone, but it has set the `empty` flag to
`true` and never restores it.  Concretely: after pushing two bytes (72, 105)
with terminator `Newline`, reading fails with `NoLines` and the resulting
state has `empty = true` although the call entered with `empty = false` and
consumed nothing (`start` and `end` are restored). -/
theorem claim_C1_bug :
    (LineBuffer.new 4).push_bytes [72, 105] =
      some ({ buffer := [72, 105, 0, 0], config := { terminator := Terminator.Newline },
              start := 0, endIdx := 2, empty := false }, Except.ok ()) ∧
    ({ buffer := [72, 105, 0, 0], config := { terminator := Terminator.Newline },
       start := 0, endIdx := 2, empty := false } : LineBuffer).read_line_bytes [0, 0, 0, 0] =
      some ({ buffer := [72, 105, 0, 0], config := { terminator := Terminator.Newline },
              start := 0, endIdx := 2, empty := true },
            [72, 105, 0, 0], Except.error LineBufferRxError.NoLines) := by
  constructor
  · decide
  · decide

/-- Claim C2 is violated by the code, through the same slip as C1: the state
reached by pushing 65, 66, 67 and then failing a read with `NoLines` has
`empty = true` (so `is_empty` reports `true` and `heldCount` is 0) although
the three pushed bytes were never consumed — `start = 0` and `end = 3`
still delimit them.  The reachable-state invariant `empty = true` iff zero
unconsumed bytes therefore fails. -/
theorem claim_C2_bug :
    (LineBuffer.new 5).push_bytes [65, 66, 67] =
      some ({ buffer := [65, 66, 67, 0, 0], config := { terminator := Terminator.Newline },
              start := 0, endIdx := 3, empty := false }, Except.ok ()) ∧
    ({ buffer := [65, 66, 67, 0, 0], config := { terminator := Terminator.Newline },
       start := 0, endIdx := 3, empty := false } : LineBuffer).read_line_bytes
        [0, 0, 0, 0, 0] =
      some ({ buffer := [65, 66, 67, 0, 0], config := { terminator := Terminator.Newline },
              start := 0, endIdx := 3, empty := true },
            [65, 66, 67, 0, 0], Except.error LineBufferRxError.NoLines) ∧
    ({ buffer := [65, 66, 67, 0, 0], config := { terminator := Terminator.Newline },
       start := 0, endIdx := 3, empty := true } : LineBuffer).is_empty = true ∧
    heldCount { buffer := [65, 66, 67, 0, 0], config := { terminator := Terminator.Newline },
                start := 0, endIdx := 3, empty := true } = 0 := by
  refine ⟨by decide, by decide, by decide, by decide⟩

/-- Claim C3 is violated by the code in both directions, due to the
`self.start != self.end` guard in the two-byte-terminator match.
(a) On the first iteration over a full buffer `start == end`, so a genuine
CRLF pair at the front of the held bytes is NOT matched: pushing
13, 10, 65, 66 into a 4-byte buffer (full) and reading yields `NoLines`
instead of recognising the boundary.  (b) When the lone held byte is 13
the guard passes and the code reads the byte at the `end` position —
OUTSIDE the held region — and a stale 10 there completes a phantom match:
starting from the reachable state holding just the byte 13 (start 0,
end 1) over stale storage [13, 10, 13, 10], the read returns `Ok 0` and
leaves `start = 2` beyond `end = 1`, consuming a byte that was never
pushed, instead of copying the lone 13 as data. -/
theorem claim_C3_bug :
    ((LineBuffer.new_with_config 4
        { terminator := Terminator.CarriageReturnNewline }).push_bytes
        [13, 10, 65, 66] =
      some ({ buffer := [13, 10, 65, 66],
              config := { terminator := Terminator.CarriageReturnNewline },
              start := 0, endIdx := 0, empty := false }, Except.ok ()) ∧
     ({ buffer := [13, 10, 65, 66],
        config := { terminator := Terminator.CarriageReturnNewline },
        start := 0, endIdx := 0, empty := false } : LineBuffer).read_line_bytes
         [0, 0, 0, 0] =
       some ({ buffer := [13, 10, 65, 66],
               config := { terminator := Terminator.CarriageReturnNewline },
               start := 0, endIdx := 0, empty := true },
             [13, 10, 65, 66], Except.error LineBufferRxError.NoLines)) ∧
    ((LineBuffer.new_with_config 4
        { terminator := Terminator.CarriageReturnNewline }).push_bytes
        [13, 10, 13, 10] =
      some ({ buffer := [13, 10, 13, 10],
              config := { terminator := Terminator.CarriageReturnNewline },
              start := 0, endIdx := 0, empty := false }, Except.ok ()) ∧
     ({ buffer := [13, 10, 13, 10],
        config := { terminator := Terminator.CarriageReturnNewline },
        start := 0, endIdx := 0, empty := false } : LineBuffer).read_line_bytes
         [0, 0, 0, 0] =
       some ({ buffer := [13, 10, 13, 10],
               config := { terminator := Terminator.CarriageReturnNewline },
               start := 0, endIdx := 0, empty := true },
             [13, 10, 0, 0], Except.ok 2) ∧
     ({ buffer := [13, 10, 13, 10],
        config := { terminator := Terminator.CarriageReturnNewline },
        start := 0, endIdx := 0, empty := true } : LineBuffer).push_byte 13 =
       some ({ buffer := [13, 10, 13, 10],
               config := { terminator := Terminator.CarriageReturnNewline },
               start := 0, endIdx := 1, empty := false }, Except.ok ()) ∧
     ({ buffer := [13, 10, 13, 10],
        config := { terminator := Terminator.CarriageReturnNewline },
        start := 0, endIdx := 1, empty := false } : LineBuffer).read_line_bytes
         [0, 0, 0, 0] =
       some ({ buffer := [13, 10, 13, 10],
               config := { terminator := Terminator.CarriageReturnNewline },
               start := 2, endIdx := 1, empty := false },
             [0, 0, 0, 0], Except.ok 0)) := by
  refine ⟨⟨by decide, by decide⟩, by decide, by decide, by decide, by decide⟩

/-- Claim C4 is violated as stated: construction does not reject zero
capacity (`LineBuffer::<0>::new()` is accepted), and `push_byte` on the
resulting buffer panics — `self.buffer[self.end]` indexes an empty array
(modelled as `none`) instead of returning `Ok` or a documented error. -/
theorem claim_C4_counterexample : (LineBuffer.new 0).push_byte 65 = none := by
  decide

/-- Construction yields a well-formed state for every positive capacity. -/
lemma WF_new_with_config (cap : Nat) (cfg : LineBufferConfig) (hcap : 1 ≤ cap) :
    WF (LineBuffer.new_with_config cap cfg) := by
  constructor <;> simp [LineBuffer.new_with_config] <;> omega

/-- `push_byte` never panics on a well-formed state and preserves
well-formedness. -/
lemma push_byte_total (lb : LineBuffer) (b : Nat) (hwf : WF lb) :
    ∃ r, lb.push_byte b = some r ∧ WF r.1 := by
  obtain ⟨hs, hend⟩ := hwf
  rw [LineBuffer.push_byte]
  by_cases hf : lb.is_full = true
  · rw [if_pos hf]
    exact ⟨(lb, Except.error LineBufferTxError.BufferFull), rfl, hs, hend⟩
  · rw [if_neg hf, if_pos hend]
    refine ⟨_, rfl, ?_, ?_⟩
    · rw [List.length_set]; exact hs
    · rw [List.length_set]; exact Nat.mod_lt _ (by omega)

/-- `push_bytes` never panics on a well-formed state and preserves
well-formedness. -/
lemma push_bytes_total (bs : List Nat) :
    ∀ lb : LineBuffer, WF lb → ∃ r, lb.push_bytes bs = some r ∧ WF r.1 := by
  induction bs with
  | nil => intro lb hwf; exact ⟨(lb, Except.ok ()), rfl, hwf⟩
  | cons b bs ih =>
    intro lb hwf
    obtain ⟨⟨lb1, res⟩, hp, hwf1⟩ := push_byte_total lb b hwf
    rw [LineBuffer.push_bytes, hp]
    cases res with
    | error e => exact ⟨(lb1, Except.error e), rfl, hwf1⟩
    | ok u => exact ih lb1 hwf1

/-- `read_line_bytes` never panics on a well-formed state given an aux
buffer of the ring's capacity, and preserves well-formedness. -/
lemma read_line_bytes_total (lb : LineBuffer) (aux : List Nat)
    (hwf : WF lb) (haux : aux.length = lb.buffer.length) :
    ∃ r, lb.read_line_bytes aux = some r ∧ WF r.1 := by
  by_cases he : lb.empty = true
  · refine ⟨(lb, aux, Except.error LineBufferRxError.BufferEmpty), ?_, hwf⟩
    rw [LineBuffer.read_line_bytes, if_pos (by rw [LineBuffer.is_empty, he])]
  · have he1 : lb.empty = false := by simpa using he
    obtain ⟨hs, hend⟩ := hwf
    rcases hscan : scanSpec lb.buffer lb.config.terminator lb.endIdx lb.start
        (heldCount lb) lb.start lb.empty aux 0 with ⟨s1, e1, aux1, res⟩
    refine ⟨({ lb with start := s1, empty := e1 }, aux1, res),
      read_line_bytes_eq lb aux ⟨hs, hend⟩ he1 haux s1 e1 aux1 res hscan, ?_, hend⟩
    have hlt := scanSpec_fst_lt lb.buffer lb.config.terminator lb.endIdx lb.start
      (by omega) hs (heldCount lb) lb.start lb.empty aux 0 hs
    rw [hscan] at hlt
    exact hlt

/-- An operation returning `o` completed without panicking and left a
well-formed buffer state. -/
def noPanicWF {α : Type} (o : Option (LineBuffer × α)) : Prop :=
  ∃ r, o = some r ∧ WF r.1

/-- Claim C4, amended: construction does NOT reject zero capacity (the
counterexample shows `push_byte` then panics), but for every capacity ≥ 1
construction yields a well-formed state, and on well-formed states every
public operation — `push_byte`, `push_bytes`, `read_line_bytes` with an
aux buffer of the ring's capacity, `clear` (and the pure queries
`is_empty`, `is_full`, which are total by type) — returns normally with
`Ok` or a documented error and preserves well-formedness, so no reachable
call panics. -/
theorem claim_C4_amended (cap : Nat) (cfg : LineBufferConfig) (lb : LineBuffer)
    (b : Nat) (bs : List Nat) (aux : List Nat)
    (hcap : 1 ≤ cap) (hwf : WF lb) (haux : aux.length = lb.buffer.length) :
    (LineBuffer.new 0).buffer.length = 0 ∧
    WF (LineBuffer.new cap) ∧
    WF (LineBuffer.new_with_config cap cfg) ∧
    noPanicWF (lb.push_byte b) ∧
    noPanicWF (lb.push_bytes bs) ∧
    noPanicWF (lb.read_line_bytes aux) ∧
    WF lb.clear := by
  have hs := hwf.1
  refine ⟨rfl, ?_, WF_new_with_config cap cfg hcap, push_byte_total lb b hwf,
    push_bytes_total bs lb hwf, read_line_bytes_total lb aux hwf haux, ?_⟩
  · constructor <;> simp [LineBuffer.new] <;> omega
  · constructor <;> simp [LineBuffer.clear] <;> omega

/-- Witness for the amended C4 at capacity 3 with one held byte. -/
theorem claim_C4_witness :
    (LineBuffer.new 0).buffer.length = 0 ∧
    WF (LineBuffer.new 1) ∧
    WF (LineBuffer.new_with_config 1 { terminator := Terminator.None }) ∧
    noPanicWF (({ buffer := [72, 0, 0], config := { terminator := Terminator.Newline },
                  start := 0, endIdx := 1, empty := false } : LineBuffer).push_byte 10) ∧
    noPanicWF (({ buffer := [72, 0, 0], config := { terminator := Terminator.Newline },
                  start := 0, endIdx := 1, empty := false } : LineBuffer).push_bytes [10]) ∧
    noPanicWF (({ buffer := [72, 0, 0], config := { terminator := Terminator.Newline },
                  start := 0, endIdx := 1, empty := false } : LineBuffer).read_line_bytes
                  [0, 0, 0]) ∧
    WF ({ buffer := [72, 0, 0], config := { terminator := Terminator.Newline },
          start := 0, endIdx := 1, empty := false } : LineBuffer).clear :=
  claim_C4_amended 1 { terminator := Terminator.None }
    { buffer := [72, 0, 0], config := { terminator := Terminator.Newline },
      start := 0, endIdx := 1, empty := false }
    10 [10] [0, 0, 0] (by decide) (by decide) (by decide)

/-- Claim C7: with terminator `None`, reading a non-empty well-formed buffer
succeeds, returns the number of held bytes, copies the held bytes in arrival
order into the front of the aux buffer, and leaves the buffer empty. -/
theorem claim_C7_terminator_none (lb : LineBuffer) (aux : List Nat)
    (hwf : WF lb) (he : lb.empty = false)
    (hterm : lb.config.terminator = Terminator.None)
    (haux : aux.length = lb.buffer.length) :
    ∃ lb1 aux1,
      lb.read_line_bytes aux = some (lb1, aux1, Except.ok (heldCount lb)) ∧
      lb1.empty = true ∧
      aux1.take (heldCount lb) = heldList lb := by
  obtain ⟨hs, hend⟩ := hwf
  obtain ⟨hc1, hc2, hc3⟩ := heldCount_range lb ⟨hs, hend⟩ he
  obtain ⟨k1, hk⟩ : ∃ k1, heldCount lb = k1 + 1 := ⟨heldCount lb - 1, by omega⟩
  refine ⟨{ lb with start := (lb.start + heldCount lb) % lb.buffer.length, empty := true },
    auxWrite lb.buffer (heldCount lb) lb.start aux 0, ?_, rfl, ?_⟩
  · have heq := read_line_bytes_eq lb aux ⟨hs, hend⟩ he haux
      ((lb.start + (k1 + 1)) % lb.buffer.length) true
      (auxWrite lb.buffer (k1 + 1) lb.start aux 0) (Except.ok (0 + (k1 + 1)))
      (by rw [hterm, hk]
          exact scanSpec_none_eq lb.buffer lb.endIdx lb.start k1 lb.start lb.empty aux 0)
    rw [Nat.zero_add] at heq
    rw [hk]
    exact heq
  · rw [auxWrite_take lb.buffer (heldCount lb) lb.start aux hs (by omega), heldList]
    rfl

/-- Concrete state used by the C7 witness: holds 65, 66, terminator `None`. -/
def c7state : LineBuffer :=
  { buffer := [65, 66, 0], config := { terminator := Terminator.None },
    start := 0, endIdx := 2, empty := false }

/-- Witness for C7: a buffer holding 65, 66 with terminator `None`. -/
theorem claim_C7_witness :
    ∃ lb1 aux1,
      c7state.read_line_bytes [0, 0, 0] =
        some (lb1, aux1, Except.ok (heldCount c7state)) ∧
      lb1.empty = true ∧
      aux1.take (heldCount c7state) = heldList c7state :=
  claim_C7_terminator_none c7state [0, 0, 0] (by decide) rfl rfl rfl

/-- Claim C10: when `read_line_bytes` fails with `NoLines` it has still
written every scanned held byte into the front of the caller's aux buffer
(positions `0 .. heldCount - 1`), positions from `heldCount` on are
unchanged, and the failure is side-effect-free for the ring's `start`
index, which is rewound. -/
theorem claim_C10_noLines_aux (lb lb1 : LineBuffer) (aux aux1 : List Nat)
    (hwf : WF lb) (haux : aux.length = lb.buffer.length)
    (hres : lb.read_line_bytes aux =
      some (lb1, aux1, Except.error LineBufferRxError.NoLines)) :
    aux1.take (heldCount lb) = heldList lb ∧
    aux1.drop (heldCount lb) = aux.drop (heldCount lb) ∧
    lb1.start = lb.start := by
  obtain ⟨hs, hend⟩ := hwf
  by_cases he : lb.empty = true
  · rw [LineBuffer.read_line_bytes, if_pos (by rw [LineBuffer.is_empty, he])] at hres
    simp only [Option.some.injEq, Prod.mk.injEq] at hres
    exact absurd hres.2.2 (by simp)
  · have he1 : lb.empty = false := by simpa using he
    obtain ⟨hc1, hc2, hc3⟩ := heldCount_range lb ⟨hs, hend⟩ he1
    rcases hscan : scanSpec lb.buffer lb.config.terminator lb.endIdx lb.start
        (heldCount lb) lb.start lb.empty aux 0 with ⟨s1, e1, aux1x, res⟩
    rw [read_line_bytes_eq lb aux ⟨hs, hend⟩ he1 haux s1 e1 aux1x res hscan] at hres
    simp only [Option.some.injEq, Prod.mk.injEq] at hres
    obtain ⟨hlb1, haux1, hres2⟩ := hres
    subst hres2
    obtain ⟨h1, h2, h3⟩ := scanSpec_noLines_inv lb.buffer lb.config.terminator
      lb.endIdx lb.start (heldCount lb) lb.start lb.empty aux 0 s1 e1 aux1x hscan
    refine ⟨?_, ?_, ?_⟩
    · rw [← haux1, h3, auxWrite_take lb.buffer (heldCount lb) lb.start aux hs (by omega),
        heldList]
      rfl
    · rw [← haux1, h3, auxWrite_drop lb.buffer (heldCount lb) lb.start aux hs (by omega)]
    · rw [← hlb1]
      exact h1

/-- Concrete pre-state used by the C10 witness: holds 72, 105, no newline. -/
def c10state : LineBuffer :=
  { buffer := [72, 105, 0, 0], config := { terminator := Terminator.Newline },
    start := 0, endIdx := 2, empty := false }

/-- Concrete post-state used by the C10 witness (note the `empty` slip). -/
def c10stateAfter : LineBuffer :=
  { buffer := [72, 105, 0, 0], config := { terminator := Terminator.Newline },
    start := 0, endIdx := 2, empty := true }

/-- Witness for C10: reading 72, 105 with no newline present writes them
into the aux buffer, leaves later aux positions untouched, and restores
`start`. -/
theorem claim_C10_witness :
    [72, 105, 7, 7].take (heldCount c10state) = heldList c10state ∧
    [72, 105, 7, 7].drop (heldCount c10state) = [7, 7, 7, 7].drop (heldCount c10state) ∧
    c10stateAfter.start = c10state.start :=
  claim_C10_noLines_aux c10state c10stateAfter [7, 7, 7, 7] [72, 105, 7, 7]
    (by decide) (by decide) (by decide)

/-- The bytes of the string used by the C8 cycle workload. -/
def helloWorld : List Nat := [72, 101, 108, 108, 111, 32, 87, 111, 114, 108, 100]

/-- One producer-consumer cycle at capacity 15: push the 12 bytes of
72 .. 100 followed by 10 (newline), then extract one line into a fresh
15-byte aux buffer.  Returns the resulting buffer state when the cycle
behaves as claim C8 requires — no error, count 11, content 72 .. 100,
buffer empty afterwards — and `none` otherwise. -/
def stepGood (lb : LineBuffer) : Option LineBuffer :=
  match lb.push_bytes (helloWorld ++ [10]) with
  | some (lb1, Except.ok _) =>
    match lb1.read_line_bytes (List.replicate 15 0) with
    | some (lb2, aux, Except.ok n) =>
      if n = 11 ∧ aux.take 11 = helloWorld ∧ lb2.empty = true then some lb2 else none
    | _ => none
  | _ => none

/-- `m` chained cycles, propagating failure. -/
def stepGoodN : Nat → LineBuffer → Option LineBuffer
  | 0, lb => some lb
  | n + 1, lb =>
    match stepGood lb with
    | some lb1 => stepGoodN n lb1
    | none => none

/-- All of the first `n` cycles starting from `lb` behave as required. -/
def goodN : Nat → LineBuffer → Bool
  | 0, _ => true
  | n + 1, lb =>
    match stepGood lb with
    | some lb1 => goodN n lb1
    | none => false

lemma goodN_add (m : Nat) : ∀ (n : Nat) (lb : LineBuffer),
    goodN (m + n) lb = (stepGoodN m lb).elim false (goodN n) := by
  induction m with
  | zero =>
    intro n lb
    rw [Nat.zero_add]
    rfl
  | succ m ih =>
    intro n lb
    have e1 : m + 1 + n = (m + n) + 1 := by omega
    rw [e1, goodN, stepGoodN]
    cases hsg : stepGood lb with
    | none => rfl
    | some lb1 => exact ih n lb1

/-- The cycle states are eventually periodic with period 5: after 7 cycles
from a fresh capacity-15 buffer the state equals the state after 2 cycles
(`start = end = 9`, the last 15 bytes written covering all storage). -/
lemma stepGoodN_period :
    stepGoodN 7 (LineBuffer.new 15) = stepGoodN 2 (LineBuffer.new 15) := by
  decide

/-- Claim C8: every number of repetitions of the push-then-extract cycle at
capacity 15 succeeds — no call errors, every extraction returns count 11
with content 72 .. 100 ("Hello World"), and the buffer is empty after each
cycle, exercising wrap-around at a capacity smaller than the total bytes
written. -/
theorem claim_C8_cycles : ∀ n : Nat, goodN n (LineBuffer.new 15) = true := by
  intro n
  induction n using Nat.strong_induction_on with
  | h n ih =>
    by_cases h7 : n < 7
    · interval_cases n <;> decide
    · obtain ⟨m, rfl⟩ : ∃ m, n = 7 + m := ⟨n - 7, by omega⟩
      rw [goodN_add 7 m, stepGoodN_period, ← goodN_add 2 m]
      exact ih (2 + m) (by omega)
